import Mathlib

/-!
Verification development for the smart-music-recommender repository
(src/app.py and src/utils.py).

The repository contains two parallel implementations of the recommendation
pipeline: `src/app.py` (the Streamlit application actually wired to the UI;
it does not import `utils.py`) and `src/utils.py` (a library variant of the
same components).  Both are embedded below where claims refer to them.

Numeric modelling conventions:
* feature values, means and variances are rationals (`ℚ`);
* sklearn's `StandardScaler` is modelled by per-column mean and population
  standard deviation (ddof = 0), with a zero standard deviation replaced by 1
  (sklearn `_handle_zeros_in_scale`), so standardized entries live in `ℝ`
  because of the square root;
* sklearn's `cosine_similarity` is modelled with the `normalize` convention
  that a zero-norm vector is divided by 1 instead of its norm.
-/

namespace MusicRec

/-- Arithmetic mean of a list of rationals, as used by numpy/sklearn on a
feature column (`mean [] = 0` since `0 / 0 = 0` in `ℚ`). -/
def mean (xs : List ℚ) : ℚ := xs.sum / xs.length

/-- Population variance (ddof = 0) of a feature column, as computed by
sklearn `StandardScaler.fit`. -/
def popVar (xs : List ℚ) : ℚ := (xs.map (fun x => (x - mean xs) ^ 2)).sum / xs.length

/-- Per-column scale of sklearn `StandardScaler`: the square root of the
population variance, with a zero variance replaced by scale 1
(sklearn `_handle_zeros_in_scale`), so no division by zero ever happens. -/
noncomputable def scaleOf (xs : List ℚ) : ℝ :=
if popVar xs = 0 then 1 else Real.sqrt ((popVar xs : ℚ) : ℝ)

/-- Column `j` of a row-major feature matrix (absent entries read as 0,
matching `DataFrame` indexing after `fillna`). -/
def col (rows : List (List ℚ)) (j : ℕ) : List ℚ := rows.map (fun r => r.getD j 0)

/-- Standardize the entries of one row against fitting data `fit`, starting
at column index `j`: entry `x` in column `j` becomes `(x - mean) / scale` of
column `j` of `fit` (sklearn `StandardScaler.transform`). -/
noncomputable def stdRow (fit : List (List ℚ)) : List ℚ → ℕ → List ℝ
| [], _ => []
| x :: xs, j => (((x : ℚ) : ℝ) - ((mean (col fit j) : ℚ) : ℝ)) / scaleOf (col fit j) :: stdRow fit xs (j + 1)

/-- sklearn `StandardScaler.transform` of a whole row against fitting data
`fit` (the fitting data of `fit_transform` when the row is part of `fit`). -/
noncomputable def stdTransform (fit : List (List ℚ)) (r : List ℚ) : List ℝ := stdRow fit r 0

/-- Sum of pairwise products of two real vectors (the dot product used inside
sklearn `cosine_similarity`). -/
def sumProd (u v : List ℝ) : ℝ := (List.zipWith (fun a b => a * b) u v).sum

/-- Squared euclidean norm of a real vector. -/
def normSq (u : List ℝ) : ℝ := sumProd u u

/-- Norm used by sklearn `normalize`: a zero norm is replaced by 1, so a zero
vector is left unchanged instead of causing a division by zero. -/
noncomputable def nrm (u : List ℝ) : ℝ := if normSq u = 0 then 1 else Real.sqrt (normSq u)

/-- Model of sklearn `cosine_similarity` on two rows (with the zero-norm
convention of sklearn `normalize`). -/
noncomputable def cosineSim (u v : List ℝ) : ℝ := sumProd u v / (nrm u * nrm v)

/-! ### Basic lemmas about the numeric core -/

theorem popVar_nonneg (xs : List ℚ) : 0 ≤ popVar xs := by
  unfold popVar
  apply div_nonneg
  · apply List.sum_nonneg
    intro x hx
    rcases List.mem_map.mp hx with ⟨y, _, rfl⟩
    positivity
  · exact_mod_cast Nat.zero_le _

theorem sq_sum_zero_of_mem {xs : List ℚ} {m : ℚ}
    (h : (xs.map (fun x => (x - m) ^ 2)).sum = 0) :
    ∀ x ∈ xs, x = m := by
  induction xs with
  | nil => intro x hx; cases hx
  | cons a l ih =>
      intro x hx
      simp only [List.map_cons, List.sum_cons] at h
      have hsq : 0 ≤ (a - m) ^ 2 := sq_nonneg _
      have hrest : 0 ≤ (l.map (fun x => (x - m) ^ 2)).sum := by
        apply List.sum_nonneg
        intro y hy
        rcases List.mem_map.mp hy with ⟨z, _, rfl⟩
        positivity
      have h1 : (a - m) ^ 2 = 0 := by linarith
      have h2 : (l.map (fun x => (x - m) ^ 2)).sum = 0 := by linarith
      rcases List.mem_cons.mp hx with hx' | hx'
      · have hz := sq_eq_zero_iff.mp h1
        rw [hx']
        linarith [sub_eq_zero.mp hz]
      · exact ih h2 x hx'

theorem sum_eq_zero_of_all {l : List ℚ} (h : ∀ y ∈ l, y = 0) : l.sum = 0 := by
  induction l with
  | nil => simp
  | cons b t ih =>
      simp only [List.sum_cons]
      rw [h b (by simp), ih (fun y hy => h y (List.mem_cons_of_mem _ hy))]
      ring

/-- Zero population variance means every value of the column equals the
column mean. -/
theorem popVar_eq_zero_imp {xs : List ℚ} (h : popVar xs = 0) :
    ∀ x ∈ xs, x = mean xs := by
  intro x hx
  have hne : xs ≠ [] := List.ne_nil_of_mem hx
  have hlen : ((xs.length : ℚ)) ≠ 0 := by
    exact_mod_cast Nat.cast_ne_zero.mpr (List.length_pos.mpr hne).ne'
  unfold popVar at h
  have hsum : (xs.map (fun x => (x - mean xs) ^ 2)).sum = 0 := by
    rcases div_eq_zero_iff.mp h with h' | h'
    · exact h'
    · exact absurd h' hlen
  exact sq_sum_zero_of_mem hsum x hx

/-- When every value of a nonempty column equals `a`, the mean is `a`. -/
theorem mean_of_const {xs : List ℚ} {a : ℚ} (hne : xs ≠ [])
    (h : ∀ x ∈ xs, x = a) : mean xs = a := by
  have hsum : xs.sum = a * xs.length := by
    induction xs with
    | nil => simp
    | cons b l ih =>
        simp only [List.sum_cons, List.length_cons]
        by_cases hl : l = []
        · subst hl
          simp [h b (by simp)]
        · have := ih hl (fun x hx => h x (List.mem_cons_of_mem _ hx))
          have hb := h b (by simp)
          subst hb
          push_cast
          rw [this]
          ring
  unfold mean
  rw [hsum]
  have hlen : (xs.length : ℚ) ≠ 0 := by
    exact_mod_cast Nat.cast_ne_zero.mpr (List.length_pos.mpr hne).ne'
  field_simp

/-- When every value of a column equals `a`, the population variance is 0. -/
theorem popVar_of_const {xs : List ℚ} {a : ℚ} (h : ∀ x ∈ xs, x = a) :
    popVar xs = 0 := by
  by_cases hne : xs = []
  · subst hne; simp [popVar]
  · have hm := mean_of_const hne h
    unfold popVar
    have hz : (xs.map (fun x => (x - mean xs) ^ 2)).sum = 0 := by
      apply sum_eq_zero_of_all
      intro y hy
      rcases List.mem_map.mp hy with ⟨z, hz, rfl⟩
      rw [h z hz, hm]
      ring
    rw [hz]
    simp

/-! ### Candidate aggregation (app.py `recommend_songs`, lines 234-244)

The three retrieval strategies each contribute a list of track records; the
code concatenates them (`pd.concat(all_tracks, ignore_index=True)`), removes
the seed track (`df[df['id'] != seed['id']]`) and then removes duplicate ids
keeping the first occurrence (`df.drop_duplicates(subset=['id'])`, whose
default is `keep='first'`). -/

/-- A track record as far as aggregation is concerned: its catalog id plus an
opaque payload standing for all the other columns. -/
structure ATrack where
  id : String
  meta : ℕ
deriving DecidableEq

/-- Model of `DataFrame.drop_duplicates(subset=['id'])` with the default
`keep='first'`: keep a row only when its id has not been seen before. -/
def dedupFirst : List ATrack → List String → List ATrack
| [], _ => []
| t :: ts, seen => if t.id ∈ seen then dedupFirst ts seen else t :: dedupFirst ts (t.id :: seen)

/-- app.py `recommend_songs` merging step: concatenate the strategies'
results in their declared order, drop the seed id, drop duplicate ids keeping
the first occurrence. -/
def aggregate (seedId : String) (strategies : List (List ATrack)) : List ATrack :=
  dedupFirst ((strategies.flatten).filter (fun t => t.id ≠ seedId)) []

theorem dedupFirst_id_spec :
    ∀ (l : List ATrack) (seen : List String) (t : ATrack),
      t ∈ dedupFirst l seen →
        t.id ∉ seen ∧ (l.filter (fun x => x.id = t.id)).head? = some t := by
  intro l
  induction l with
  | nil => intro seen t ht; cases ht
  | cons a l ih =>
      intro seen t ht
      by_cases ha : a.id ∈ seen
      · simp only [dedupFirst, if_pos ha] at ht
        obtain ⟨hseen, hhead⟩ := ih seen t ht
        refine ⟨hseen, ?_⟩
        have hne : ¬ (a.id = t.id) := by
          intro h; exact hseen (h ▸ ha)
        simp only [List.filter_cons]
        rw [if_neg (by simpa using hne)]
        exact hhead
      · simp only [dedupFirst, if_neg ha] at ht
        rcases List.mem_cons.mp ht with rfl | ht'
        · refine ⟨ha, ?_⟩
          simp [List.filter_cons]
        · obtain ⟨hseen, hhead⟩ := ih (a.id :: seen) t ht'
          have hne : ¬ (a.id = t.id) := by
            intro h
            exact hseen (by simp [h])
          refine ⟨fun hs => hseen (List.mem_cons_of_mem _ hs), ?_⟩
          simp only [List.filter_cons]
          rw [if_neg (by simpa using hne)]
          exact hhead

theorem dedupFirst_nodup :
    ∀ (l : List ATrack) (seen : List String),
      ((dedupFirst l seen).map ATrack.id).Nodup ∧
        ∀ t ∈ dedupFirst l seen, t.id ∉ seen := by
  intro l
  induction l with
  | nil => intro seen; constructor <;> simp [dedupFirst]
  | cons a l ih =>
      intro seen
      by_cases ha : a.id ∈ seen
      · simpa only [dedupFirst, if_pos ha] using ih seen
      · obtain ⟨hnd, hni⟩ := ih (a.id :: seen)
        constructor
        · simp only [dedupFirst, if_neg ha, List.map_cons, List.nodup_cons]
          refine ⟨?_, hnd⟩
          intro hmem
          rcases List.mem_map.mp hmem with ⟨u, hu, hid⟩
          exact hni u hu (by simp [hid])
        · intro t ht
          simp only [dedupFirst, if_neg ha] at ht
          rcases List.mem_cons.mp ht with rfl | ht'
          · exact ha
          · exact fun hs => hni t ht' (List.mem_cons_of_mem _ hs)

theorem filter_of_filter_ne {l : List ATrack} {sid i : String} (hne : i ≠ sid) :
    ((l.filter (fun t => t.id ≠ sid)).filter (fun x => x.id = i)) =
      l.filter (fun x => x.id = i) := by
  induction l with
  | nil => simp
  | cons a l ih =>
      by_cases hai : a.id = i
      · have has : (a.id ≠ sid) := by rw [hai]; exact hne
        simp only [List.filter_cons]
        rw [if_pos (by simpa using has)]
        simp only [List.filter_cons]
        rw [if_pos (by simpa using hai), if_pos (by simpa using hai), ih]
      · by_cases has : a.id = sid
        · simp only [List.filter_cons]
          rw [if_neg (by simpa using has)]
          rw [if_neg (by simpa using hai), ih]
        · simp only [List.filter_cons]
          rw [if_pos (by simpa using has)]
          simp only [List.filter_cons]
          rw [if_neg (by simpa using hai), if_neg (by simpa using hai), ih]

/-- C3: the merged candidate pool contains no record with the seed's id, its
ids are pairwise distinct, and every surviving record is the earliest record
bearing its id in the concatenation of the strategies' results in declared
order. -/
theorem aggregate_spec (seedId : String) (strategies : List (List ATrack)) :
    (∀ t ∈ aggregate seedId strategies, t.id ≠ seedId) ∧
      ((aggregate seedId strategies).map ATrack.id).Nodup ∧
      ∀ t ∈ aggregate seedId strategies,
        ((strategies.flatten).filter (fun x => x.id = t.id)).head? = some t := by
  have hfne : ∀ t ∈ aggregate seedId strategies, t.id ≠ seedId := by
    intro t ht
    obtain ⟨_, hhead⟩ := dedupFirst_id_spec _ [] t ht
    have hmem : t ∈ ((strategies.flatten).filter (fun t => t.id ≠ seedId)).filter
        (fun x => x.id = t.id) := List.mem_of_mem_head? hhead
    have h2 := (List.mem_filter.mp (List.mem_filter.mp hmem).1).2
    simpa using h2
  refine ⟨hfne, (dedupFirst_nodup _ []).1, ?_⟩
  intro t ht
  obtain ⟨_, hhead⟩ := dedupFirst_id_spec _ [] t ht
  rw [← filter_of_filter_ne (hfne t ht)]
  exact hhead

/-- Witness data for C3: three strategy result lists sharing ids with each
other and with the seed. -/
def exStrategies : List (List ATrack) :=
  [[⟨"seed", 0⟩, ⟨"a", 1⟩, ⟨"b", 2⟩], [⟨"a", 3⟩, ⟨"c", 4⟩], [⟨"b", 5⟩, ⟨"c", 6⟩, ⟨"d", 7⟩]]

/-- Witness for C3: on concrete strategy lists, the record kept for id "a" is
the one from the first strategy, the seed id is gone and ids are unique. -/
theorem aggregate_spec_witness :
    (ATrack.mk "a" 1).id ≠ "seed" ∧
      ((aggregate "seed" exStrategies).map ATrack.id).Nodup ∧
      ((exStrategies.flatten).filter (fun x => x.id = (ATrack.mk "a" 1).id)).head? =
        some (ATrack.mk "a" 1) := by
  obtain ⟨h1, h2, h3⟩ := aggregate_spec "seed" exStrategies
  have hmem : (ATrack.mk "a" 1) ∈ aggregate "seed" exStrategies := by decide
  exact ⟨h1 _ hmem, h2, h3 _ hmem⟩

/-! ### Top-N selection (app.py line 279, utils.py lines 249-252)

`df.nlargest(n, 'similarity')` (pandas, default `keep='first'`) returns the
rows sorted by the column in descending order, ties kept in their original
row order, truncated to `n`.  app.py passes `min(num_recommendations,
len(df))` as `n`; utils.py passes `n` directly.  Both are modelled through a
stable descending insertion sort. -/

/-- One step of a stable descending insertion sort: insert `a` before the
first element whose key is strictly smaller, after every element whose key is
at least `key a` (so earlier rows win ties). -/
def orderedInsertDesc {α β : Type} [LinearOrder β] (key : α → β) (a : α) : List α → List α
| [] => [a]
| b :: l => if key b ≤ key a then a :: b :: l else b :: orderedInsertDesc key a l

/-- Stable descending sort by a key, the ordering used by pandas
`nlargest(..., keep='first')`. -/
def sortDesc {α β : Type} [LinearOrder β] (key : α → β) : List α → List α
| [] => []
| a :: l => orderedInsertDesc key a (sortDesc key l)

/-- One list is an initial segment of another. -/
def isPre {α : Type} (l₁ l₂ : List α) : Prop := ∃ t, l₁ ++ t = l₂

theorem orderedInsertDesc_perm {α β : Type} [LinearOrder β] (key : α → β) (a : α) :
    ∀ l : List α, (orderedInsertDesc key a l).Perm (a :: l) := by
  intro l
  induction l with
  | nil => simp [orderedInsertDesc]
  | cons b l ih =>
      by_cases h : key b ≤ key a
      · simp [orderedInsertDesc, if_pos h]
      · simp only [orderedInsertDesc, if_neg h]
        exact (ih.cons b).trans (List.Perm.swap a b l)

theorem sortDesc_perm {α β : Type} [LinearOrder β] (key : α → β) :
    ∀ l : List α, (sortDesc key l).Perm l := by
  intro l
  induction l with
  | nil => simp [sortDesc]
  | cons a l ih =>
      exact (orderedInsertDesc_perm key a _).trans (ih.cons a)

theorem orderedInsertDesc_sorted {α β : Type} [LinearOrder β] (key : α → β) (a : α) :
    ∀ l : List α, l.Pairwise (fun x y => key y ≤ key x) →
      (orderedInsertDesc key a l).Pairwise (fun x y => key y ≤ key x) := by
  intro l
  induction l with
  | nil => intro _; simp [orderedInsertDesc]
  | cons b l ih =>
      intro hl
      rcases List.pairwise_cons.mp hl with ⟨hb, hl'⟩
      by_cases h : key b ≤ key a
      · simp only [orderedInsertDesc, if_pos h]
        refine List.pairwise_cons.mpr ⟨?_, hl⟩
        intro x hx
        rcases List.mem_cons.mp hx with rfl | hx'
        · exact h
        · exact le_trans (hb x hx') h
      · simp only [orderedInsertDesc, if_neg h]
        refine List.pairwise_cons.mpr ⟨?_, ih hl'⟩
        intro x hx
        have hx' := (orderedInsertDesc_perm key a l).mem_iff.mp hx
        rcases List.mem_cons.mp hx' with rfl | hx''
        · exact le_of_lt (lt_of_not_le h)
        · exact hb x hx''

theorem sortDesc_sorted {α β : Type} [LinearOrder β] (key : α → β) :
    ∀ l : List α, (sortDesc key l).Pairwise (fun x y => key y ≤ key x) := by
  intro l
  induction l with
  | nil => simp [sortDesc]
  | cons a l ih => exact orderedInsertDesc_sorted key a _ ih

theorem orderedInsertDesc_filter_key {α β : Type} [LinearOrder β] [DecidableEq α]
    (key : α → β) (a : α) (v : β) :
    ∀ l : List α,
      (orderedInsertDesc key a l).filter (fun t => key t = v) =
        if key a = v then a :: l.filter (fun t => key t = v)
          else l.filter (fun t => key t = v) := by
  intro l
  induction l with
  | nil =>
      by_cases h : key a = v
      · simp [orderedInsertDesc, List.filter, h]
      · simp [orderedInsertDesc, List.filter, h]
  | cons b l ih =>
      by_cases hba : key b ≤ key a
      · simp only [orderedInsertDesc, if_pos hba]
        by_cases h : key a = v
        · rw [if_pos h]
          simp only [List.filter_cons]
          rw [if_pos (by simpa using h)]
        · rw [if_neg h]
          simp only [List.filter_cons]
          rw [if_neg (by simpa using h)]
      · simp only [orderedInsertDesc, if_neg hba]
        have hbv : (key b = v) ↔ (key b = v) := Iff.rfl
        by_cases h : key a = v
        · rw [if_pos h]
          have hbne : ¬ (key b = v) := by
            intro hb
            exact hba (le_of_eq (hb.trans h.symm))
          simp only [List.filter_cons]
          rw [if_neg (by simpa using hbne), if_neg (by simpa using hbne), ih, if_pos h]
        · rw [if_neg h]
          simp only [List.filter_cons]
          by_cases hb : key b = v
          · rw [if_pos (by simpa using hb), if_pos (by simpa using hb), ih, if_neg h]
          · rw [if_neg (by simpa using hb), if_neg (by simpa using hb), ih, if_neg h]

/-- Stability of the descending sort: for every key value, the rows carrying
that value appear in the sorted output exactly in their original order. -/
theorem sortDesc_filter_key {α β : Type} [LinearOrder β] [DecidableEq α]
    (key : α → β) (v : β) :
    ∀ l : List α,
      (sortDesc key l).filter (fun t => key t = v) = l.filter (fun t => key t = v) := by
  intro l
  induction l with
  | nil => simp [sortDesc]
  | cons a l ih =>
      simp only [sortDesc]
      rw [orderedInsertDesc_filter_key]
      by_cases h : key a = v
      · rw [if_pos h, ih]
        simp only [List.filter_cons]
        rw [if_pos (by simpa using h)]
      · rw [if_neg h, ih]
        simp only [List.filter_cons]
        rw [if_neg (by simpa using h)]

/-- A scored row of the candidate DataFrame: an opaque payload for the other
columns plus the `similarity` column. -/
structure ScoredQ where
  meta : ℕ
  similarity : ℚ
deriving DecidableEq

/-- Model of `df.nlargest(n, 'similarity')` (pandas default `keep='first'`),
as called in utils.py `RecommendationEngine.recommend` (line 250). -/
def pandasNlargest (n : ℕ) (l : List ScoredQ) : List ScoredQ :=
  (sortDesc ScoredQ.similarity l).take n

/-- Model of `df.nlargest(min(num_recommendations, len(df)), 'similarity')`
as called in app.py `recommend_songs` (line 279). -/
def appNlargest (n : ℕ) (l : List ScoredQ) : List ScoredQ :=
  (sortDesc ScoredQ.similarity l).take (min n l.length)

/-- C5: the returned recommendation list is the candidate pool sorted by
similarity in descending order with ties kept in original pool order,
truncated to `min n (pool size)`; when `n ≥ pool size` the whole pool is
returned fully ordered, and app.py's explicit `min` agrees with utils.py's
plain `nlargest`. -/
theorem nlargest_spec (n : ℕ) (l : List ScoredQ) :
    appNlargest n l = pandasNlargest n l ∧
      (pandasNlargest n l).Pairwise (fun a b => b.similarity ≤ a.similarity) ∧
      (∀ v : ℚ, isPre ((pandasNlargest n l).filter (fun t => t.similarity = v))
        (l.filter (fun t => t.similarity = v))) ∧
      (pandasNlargest n l).length = min n l.length ∧
      (l.length ≤ n → pandasNlargest n l = sortDesc ScoredQ.similarity l ∧
        (pandasNlargest n l).Perm l) := by
  have hlen : (sortDesc ScoredQ.similarity l).length = l.length :=
    (sortDesc_perm ScoredQ.similarity l).length_eq
  refine ⟨?_, ?_, ?_, ?_, ?_⟩
  · unfold appNlargest pandasNlargest
    rw [← hlen, ← List.take_take, List.take_length]
  · exact List.Pairwise.sublist (List.take_sublist _ _) (sortDesc_sorted _ l)
  · intro v
    rw [← sortDesc_filter_key ScoredQ.similarity v l]
    unfold pandasNlargest
    refine ⟨(List.drop n (sortDesc ScoredQ.similarity l)).filter (fun t => t.similarity = v), ?_⟩
    rw [← List.filter_append, List.take_append_drop]
  · unfold pandasNlargest
    rw [List.length_take, hlen]
  · intro hle
    unfold pandasNlargest
    rw [List.take_of_length_le (by rw [hlen]; exact hle)]
    exact ⟨rfl, sortDesc_perm _ l⟩

/-- Witness pool for C5, with a tie on the top similarity value. -/
def exPool : List ScoredQ := [⟨0, 1/2⟩, ⟨1, 9/10⟩, ⟨2, 9/10⟩, ⟨3, 1/10⟩]

/-- Witness for C5: with four candidates and `n = 9 ≥ 4`, the whole pool is
returned, fully ordered descending with the tie kept in pool order. -/
theorem nlargest_spec_witness :
    exPool.length ≤ 9 ∧ pandasNlargest 9 exPool = sortDesc ScoredQ.similarity exPool := by
  refine ⟨by decide, ?_⟩
  exact ((nlargest_spec 9 exPool).2.2.2.2 (by decide)).1

/-! ### Filter stage (app.py lines 250-259, utils.py `apply_filters` lines 182-214)

Both variants first filter on the inclusive popularity range, then derive a
`year` column from `release_date` via `pd.to_datetime(...).dt.year` and
filter on the inclusive year range.  The difference: app.py parses with
`errors='coerce'` and then `dropna(subset=['year'])`, so an unparseable date
only drops that row, while utils.py calls `pd.to_datetime` with the default
`errors='raise'`, so an unparseable date raises and aborts the whole filter
(`apply_filters` has no try/except).  `pd.to_datetime`'s year extraction is
modelled by a parameter `py : String → Option ℤ` (`none` = unparseable). -/

/-- A candidate row as far as filtering is concerned: opaque payload,
`popularity` and `release_date` columns, plus the derived `year` column
(`none` when the column has not been added). -/
structure FTrack where
  meta : ℕ
  popularity : ℤ
  release_date : String
  year : Option ℤ
deriving DecidableEq

/-- The caller-supplied filters dictionary: each range is present or absent
(app.py checks `'popularity_range' in filters` / `'year_range' in filters`). -/
structure FilterSpec where
  popularity_range : Option (ℤ × ℤ)
  year_range : Option (ℤ × ℤ)

/-- Inclusive popularity-range filter, identical in both variants. -/
def popFilter (pr : Option (ℤ × ℤ)) (pool : List FTrack) : List FTrack :=
  match pr with
  | none => pool
  | some (lo, hi) => pool.filter (fun t => decide (lo ≤ t.popularity) && decide (t.popularity ≤ hi))

/-- Assignment `df['year'] = pd.to_datetime(df['release_date'], ...).dt.year`:
every row's `year` column is recomputed from its `release_date`. -/
def setYear (py : String → Option ℤ) (t : FTrack) : FTrack :=
  { t with year := py t.release_date }

/-- The inclusive year-range test on the derived `year` column (comparisons
with a NaN year are false in pandas, so an absent year never passes). -/
def yearInRange (lo hi : ℤ) (t : FTrack) : Bool :=
  match t.year with
  | some y => decide (lo ≤ y) && decide (y ≤ hi)
  | none => false

/-- app.py year filter (lines 256-259): derive the year column with
`errors='coerce'`, drop rows whose year is NaN, keep rows in range. -/
def appYearFilter (py : String → Option ℤ) (lo hi : ℤ) (pool : List FTrack) : List FTrack :=
  (((pool.map (setYear py)).filter (fun t => t.year.isSome)).filter (yearInRange lo hi))

/-- app.py `recommend_songs` filter block (lines 250-259). -/
def appApplyFilters (py : String → Option ℤ) (spec : FilterSpec) (pool : List FTrack) :
    List FTrack :=
  match spec.year_range with
  | none => popFilter spec.popularity_range pool
  | some (lo, hi) => appYearFilter py lo hi (popFilter spec.popularity_range pool)

/-- utils.py year derivation: `pd.to_datetime` with the default
`errors='raise'` — the first unparseable date makes the whole call fail. -/
def utilsYearRows (py : String → Option ℤ) : List FTrack → Option (List FTrack)
| [] => some []
| t :: ts =>
    match py t.release_date with
    | none => none
    | some y => (utilsYearRows py ts).map (fun rest => { t with year := some y } :: rest)

/-- utils.py `RecommendationEngine.apply_filters` (lines 182-214): same
stages as app.py, except that a parse failure raises (modelled as
`Except.error`) instead of dropping the row. -/
def utilsApplyFilters (py : String → Option ℤ) (spec : FilterSpec) (pool : List FTrack) :
    Except String (List FTrack) :=
  match spec.year_range with
  | none => .ok (popFilter spec.popularity_range pool)
  | some (lo, hi) =>
      match utilsYearRows py (popFilter spec.popularity_range pool) with
      | none => .error "unparseable release_date"
      | some d2 => .ok (d2.filter (yearInRange lo hi))

/-- C6 (amended, app.py part): the year filter keeps exactly the rows whose
release date parses to a year inside the inclusive range — rows with an
unparseable date are dropped, not defaulted, and nothing aborts (the result
is total by construction). -/
theorem appYearFilter_spec (py : String → Option ℤ) (lo hi : ℤ) (pool : List FTrack) :
    appYearFilter py lo hi pool =
      (pool.filter (fun t =>
        match py t.release_date with
        | some y => decide (lo ≤ y) && decide (y ≤ hi)
        | none => false)).map (setYear py) := by
  unfold appYearFilter
  rw [List.filter_filter, List.filter_map]
  congr 1
  apply List.filter_congr
  intro t _
  cases hpy : py t.release_date <;> simp [Function.comp, setYear, yearInRange, hpy]

/-- Unparseable-date pool used by the C6 counterexample. -/
def exBadPool : List FTrack := [⟨0, 50, "banana", none⟩]

/-- Decimal digit test on a character. -/
def isDigitChar (c : Char) : Bool := decide ('0' ≤ c) && decide (c ≤ '9')

/-- Read a run of decimal digits as a number; any non-digit fails. -/
def digitsToNat (acc : ℕ) : List Char → Option ℕ
| [] => some acc
| c :: cs => if isDigitChar c then digitsToNat (acc * 10 + (c.toNat - '0'.toNat)) cs else none

/-- Model of the year extracted by `pd.to_datetime` from an ISO-ish date
string: the leading (at most four) characters read as a number ("1999",
"1999-05", "1999-05-12" all give 1999; "banana" fails). -/
def parseYearModel (s : String) : Option ℤ :=
  match s.data.take 4 with
  | [] => none
  | cs => (digitsToNat 0 cs).map (fun n => (n : ℤ))

/-- C6 counterexample: on a pool containing one record with the unparseable
release date "banana", utils.py's `apply_filters` raises (aborts) instead of
dropping the record, while app.py's filter drops it and returns the empty
pool. -/
theorem utils_filter_aborts_counterexample :
    utilsApplyFilters parseYearModel ⟨none, some (2000, 2024)⟩ exBadPool =
        .error "unparseable release_date" ∧
      appApplyFilters parseYearModel ⟨none, some (2000, 2024)⟩ exBadPool = [] := by
  constructor <;> rfl

theorem popFilter_idem (pr : Option (ℤ × ℤ)) (pool : List FTrack) :
    popFilter pr (popFilter pr pool) = popFilter pr pool := by
  cases pr with
  | none => rfl
  | some p =>
      obtain ⟨lo, hi⟩ := p
      simp only [popFilter, List.filter_filter]
      apply List.filter_congr
      intro t _
      simp [Bool.and_self]

theorem popFilter_eq_self_of {pr : Option (ℤ × ℤ)} {l : List FTrack}
    (h : ∀ t ∈ l, ∀ lo hi, pr = some (lo, hi) →
      (decide (lo ≤ t.popularity) && decide (t.popularity ≤ hi)) = true) :
    popFilter pr l = l := by
  cases pr with
  | none => rfl
  | some p =>
      obtain ⟨lo, hi⟩ := p
      apply List.filter_eq_self.mpr
      intro t ht
      exact h t ht lo hi rfl

theorem setYear_popFilter (py : String → Option ℤ) (pr : Option (ℤ × ℤ))
    (pool : List FTrack) :
    popFilter pr (pool.map (setYear py)) = (popFilter pr pool).map (setYear py) := by
  cases pr with
  | none => rfl
  | some p =>
      obtain ⟨lo, hi⟩ := p
      simp only [popFilter]
      rw [List.filter_map]
      rfl

theorem appApplyFilters_idempotent (py : String → Option ℤ) (spec : FilterSpec)
    (pool : List FTrack) :
    appApplyFilters py spec (appApplyFilters py spec pool) =
      appApplyFilters py spec pool := by
  obtain ⟨pr, yr⟩ := spec
  cases yr with
  | none =>
      simp only [appApplyFilters]
      exact popFilter_idem pr pool
  | some p =>
      obtain ⟨lo, hi⟩ := p
      simp only [appApplyFilters, appYearFilter_spec]
      set P : FTrack → Bool := fun t =>
        match py t.release_date with
        | some y => decide (lo ≤ y) && decide (y ≤ hi)
        | none => false with hP
      set q := (popFilter pr pool).filter P with hq
      have hpop : popFilter pr (q.map (setYear py)) = q.map (setYear py) := by
        rw [setYear_popFilter]
        have : popFilter pr q = q := by
          rw [hq]
          cases pr with
          | none => rfl
          | some pp =>
              obtain ⟨plo, phi⟩ := pp
              apply List.filter_eq_self.mpr
              intro t ht
              have ht' : t ∈ popFilter (some (plo, phi)) pool := List.mem_of_mem_filter ht
              simp only [popFilter] at ht'
              exact (List.mem_filter.mp ht').2
        rw [this]
      rw [hpop]
      have hPset : ∀ t, P (setYear py t) = P t := by
        intro t
        simp [hP, setYear]
      rw [List.filter_map]
      have hkeep : q.filter (fun t => P (setYear py t)) = q := by
        apply List.filter_eq_self.mpr
        intro t ht
        rw [hPset]
        exact List.of_mem_filter ht
      have : (List.filter (P ∘ setYear py) q) = q := by
        have : (P ∘ setYear py) = fun t => P (setYear py t) := rfl
        rw [this]
        exact hkeep
      rw [this, List.map_map]
      have hyy : (setYear py ∘ setYear py) = setYear py := by
        funext t
        simp [setYear]
      rw [hyy]

theorem map_id_of_mem {α : Type} {l : List α} {f : α → α}
    (h : ∀ t ∈ l, f t = t) : l.map f = l := by
  induction l with
  | nil => rfl
  | cons a t ih =>
      simp only [List.map_cons]
      rw [h a (by simp), ih (fun x hx => h x (List.mem_cons_of_mem _ hx))]

theorem utilsYearRows_ok {py : String → Option ℤ} :
    ∀ {l d2 : List FTrack}, utilsYearRows py l = some d2 →
      d2 = l.map (setYear py) ∧ ∀ t ∈ l, (py t.release_date).isSome = true := by
  intro l
  induction l with
  | nil =>
      intro d2 h
      simp only [utilsYearRows] at h
      exact ⟨(Option.some_inj.mp h).symm, by intro t ht; cases ht⟩
  | cons t ts ih =>
      intro d2 h
      simp only [utilsYearRows] at h
      cases hpy : py t.release_date with
      | none => rw [hpy] at h; cases h
      | some y =>
          rw [hpy] at h
          rcases Option.map_eq_some'.mp h with ⟨rest, hrest, rfl⟩
          obtain ⟨hmap, hall⟩ := ih hrest
          constructor
          · simp only [List.map_cons, hmap]
            have : setYear py t = { t with year := some y } := by
              simp [setYear, hpy]
            rw [this]
          · intro u hu
            rcases List.mem_cons.mp hu with rfl | hu'
            · simp [hpy]
            · exact hall u hu'

theorem utilsYearRows_all_some {py : String → Option ℤ} :
    ∀ {l : List FTrack}, (∀ t ∈ l, (py t.release_date).isSome = true) →
      utilsYearRows py l = some (l.map (setYear py)) := by
  intro l
  induction l with
  | nil => intro _; rfl
  | cons t ts ih =>
      intro h
      have ht := h t (by simp)
      cases hpy : py t.release_date with
      | none => rw [hpy] at ht; cases ht
      | some y =>
          simp only [utilsYearRows, hpy]
          rw [ih (fun u hu => h u (List.mem_cons_of_mem _ hu))]
          simp only [Option.map_some', List.map_cons]
          have : setYear py t = { t with year := some y } := by
            simp [setYear, hpy]
          rw [this]

theorem utilsApplyFilters_idempotent (py : String → Option ℤ) (spec : FilterSpec)
    (pool : List FTrack) :
    (utilsApplyFilters py spec pool).bind (utilsApplyFilters py spec) =
      utilsApplyFilters py spec pool := by
  obtain ⟨pr, yr⟩ := spec
  cases yr with
  | none =>
      simp only [utilsApplyFilters, Except.bind]
      rw [popFilter_idem]
  | some p =>
      obtain ⟨lo, hi⟩ := p
      simp only [utilsApplyFilters]
      cases hy : utilsYearRows py (popFilter pr pool) with
      | none => rfl
      | some d2 =>
          obtain ⟨hmap, hall⟩ := utilsYearRows_ok hy
          simp only [Except.bind]
          set res := d2.filter (yearInRange lo hi) with hres
          have hresmem : ∀ t ∈ res, ∃ u ∈ popFilter pr pool, t = setYear py u := by
            intro t ht
            have ht2 : t ∈ d2 := List.mem_of_mem_filter ht
            rw [hmap] at ht2
            rcases List.mem_map.mp ht2 with ⟨u, hu, rfl⟩
            exact ⟨u, hu, rfl⟩
          have hpop : popFilter pr res = res := by
            apply popFilter_eq_self_of
            intro t ht plo phi hpr
            rcases hresmem t ht with ⟨u, hu, rfl⟩
            subst hpr
            simp only [popFilter] at hu
            have := (List.mem_filter.mp hu).2
            simpa [setYear] using this
          simp only [utilsApplyFilters]
          rw [hpop]
          have hally : ∀ t ∈ res, (py t.release_date).isSome = true := by
            intro t ht
            rcases hresmem t ht with ⟨u, hu, rfl⟩
            simpa [setYear] using hall u hu
          rw [utilsYearRows_all_some hally]
          have hid : res.map (setYear py) = res := by
            apply map_id_of_mem
            intro t ht
            rcases hresmem t ht with ⟨u, hu, rfl⟩
            simp [setYear]
          rw [hid]
          have hkeep : res.filter (yearInRange lo hi) = res := by
            apply List.filter_eq_self.mpr
            intro t ht
            rw [hres] at ht
            exact (List.mem_filter.mp ht).2
          exact congrArg Except.ok hkeep

/-- C9: applying the filter stage twice with the same spec equals applying it
once, including the year-range case where the first application already
added the derived `year` column (the second application recomputes it from
the unchanged `release_date`): this holds for app.py's filter block as plain
equality and for utils.py's `apply_filters` as idempotence under `Except`
sequencing (an aborted first application stays aborted). -/
theorem filter_idempotent (py : String → Option ℤ) (spec : FilterSpec)
    (pool : List FTrack) :
    appApplyFilters py spec (appApplyFilters py spec pool) =
        appApplyFilters py spec pool ∧
      (utilsApplyFilters py spec pool).bind (utilsApplyFilters py spec) =
        utilsApplyFilters py spec pool :=
  ⟨appApplyFilters_idempotent py spec pool, utilsApplyFilters_idempotent py spec pool⟩

/-! ### Track record normalization (app.py `get_track_details` lines 124-160,
utils.py `SpotifyDataProcessor.extract_track_info` lines 62-106)

app.py's `get_audio_features` returns an empty dict when the lookup fails,
and `get_track_details` fills every feature with `audio_features.get(col,
default)`.  utils.py's `extract_track_info` instead does `info.update({...:
audio_features['danceability'], ...})` only when `audio_features` is truthy:
a failed lookup leaves all feature keys absent, and a present dict missing
one key raises `KeyError`, which the broad `except` turns into `None` (the
record is rejected). -/

/-- The raw audio-features object: each field may be absent. -/
structure RawFeatures where
  danceability : Option ℚ
  energy : Option ℚ
  valence : Option ℚ
  tempo : Option ℚ
  acousticness : Option ℚ
  liveness : Option ℚ
  instrumentalness : Option ℚ
  loudness : Option ℚ
  speechiness : Option ℚ
  key : Option ℚ
  mode : Option ℚ
deriving DecidableEq

/-- The empty dict `{}` returned by app.py `get_audio_features` on failure. -/
def emptyRawFeatures : RawFeatures :=
  ⟨none, none, none, none, none, none, none, none, none, none, none⟩

/-- A fully populated feature section of a normalized track record. -/
structure FeatureVals where
  danceability : ℚ
  energy : ℚ
  valence : ℚ
  tempo : ℚ
  acousticness : ℚ
  liveness : ℚ
  instrumentalness : ℚ
  loudness : ℚ
  speechiness : ℚ
  key : ℚ
  mode : ℚ
deriving DecidableEq

/-- app.py `get_audio_features` (lines 113-121): an error outcome is turned
into the empty features dict. -/
def appAudioFeatures (lookup : Except String RawFeatures) : RawFeatures :=
  match lookup with
  | .ok f => f
  | .error _ => emptyRawFeatures

/-- app.py `get_track_details` feature block (lines 143-156):
`audio_features.get(col, default)` for each feature. -/
def appTrackFeatureVals (af : RawFeatures) : FeatureVals :=
  ⟨af.danceability.getD (1/2), af.energy.getD (1/2), af.valence.getD (1/2),
   af.tempo.getD 120, af.acousticness.getD (1/2), af.liveness.getD (1/2),
   af.instrumentalness.getD (1/2), af.loudness.getD (-10), af.speechiness.getD (1/2),
   af.key.getD 0, af.mode.getD 1⟩

/-- Feature section of the record produced by app.py `get_track_details`,
as a function of the audio-features lookup outcome. -/
def getTrackDetailsFeatures (lookup : Except String RawFeatures) : FeatureVals :=
  appTrackFeatureVals (appAudioFeatures lookup)

/-- Dict access `f['field']` for all eleven feature keys at once: succeeds
only when every key is present (utils.py lines 89-101); a missing key is a
`KeyError`. -/
def allFields (f : RawFeatures) : Option FeatureVals :=
  match f.danceability, f.energy, f.valence, f.tempo, f.acousticness, f.liveness,
      f.instrumentalness, f.loudness, f.speechiness, f.key, f.mode with
  | some d, some e, some v, some t, some a, some l, some i, some lo, some s,
      some k, some m => some ⟨d, e, v, t, a, l, i, lo, s, k, m⟩
  | _, _, _, _, _, _, _, _, _, _, _ => none

/-- Feature section of utils.py `extract_track_info`: outer `none` = the
whole record was rejected (the `except` branch returning `None`); inner
`none` = the record was produced but carries no feature fields at all. -/
def utilsExtractFeatures (af : Option RawFeatures) : Option (Option FeatureVals) :=
  match af with
  | none => some none
  | some f =>
      match allFields f with
      | some vals => some (some vals)
      | none => none

/-- An option field together with its default: the result either is the
present raw value or is the default with the raw value absent. -/
def defaulted (o : Option ℚ) (d r : ℚ) : Prop := (o = none ∧ r = d) ∨ o = some r

theorem defaulted_getD (o : Option ℚ) (d : ℚ) : defaulted o d (o.getD d) := by
  cases o with
  | none => exact Or.inl ⟨rfl, rfl⟩
  | some x => exact Or.inr rfl

/-- C2 (amended, app.py part): `get_track_details` always produces a fully
populated feature section; each feature equals the raw value when present and
its documented default (0.5, tempo 120, loudness -10, key 0, mode 1) when
missing, and a failed lookup yields exactly the all-defaults record. -/
theorem getTrackDetails_defaults (lookup : Except String RawFeatures) :
    (∀ e, lookup = .error e →
      getTrackDetailsFeatures lookup =
        ⟨1/2, 1/2, 1/2, 120, 1/2, 1/2, 1/2, -10, 1/2, 0, 1⟩) ∧
    defaulted (appAudioFeatures lookup).danceability (1/2)
      (getTrackDetailsFeatures lookup).danceability ∧
    defaulted (appAudioFeatures lookup).energy (1/2)
      (getTrackDetailsFeatures lookup).energy ∧
    defaulted (appAudioFeatures lookup).valence (1/2)
      (getTrackDetailsFeatures lookup).valence ∧
    defaulted (appAudioFeatures lookup).tempo 120
      (getTrackDetailsFeatures lookup).tempo ∧
    defaulted (appAudioFeatures lookup).acousticness (1/2)
      (getTrackDetailsFeatures lookup).acousticness ∧
    defaulted (appAudioFeatures lookup).liveness (1/2)
      (getTrackDetailsFeatures lookup).liveness ∧
    defaulted (appAudioFeatures lookup).instrumentalness (1/2)
      (getTrackDetailsFeatures lookup).instrumentalness ∧
    defaulted (appAudioFeatures lookup).loudness (-10)
      (getTrackDetailsFeatures lookup).loudness ∧
    defaulted (appAudioFeatures lookup).speechiness (1/2)
      (getTrackDetailsFeatures lookup).speechiness ∧
    defaulted (appAudioFeatures lookup).key 0
      (getTrackDetailsFeatures lookup).key ∧
    defaulted (appAudioFeatures lookup).mode 1
      (getTrackDetailsFeatures lookup).mode := by
  refine ⟨?_, ?_, ?_, ?_, ?_, ?_, ?_, ?_, ?_, ?_, ?_, ?_⟩
  · intro e he
    subst he
    rfl
  all_goals exact defaulted_getD _ _

/-- Witness for C2: a failed feature lookup produces the all-defaults
feature section. -/
theorem getTrackDetails_defaults_witness :
    getTrackDetailsFeatures (.error "No audio features") =
      ⟨1/2, 1/2, 1/2, 120, 1/2, 1/2, 1/2, -10, 1/2, 0, 1⟩ :=
  (getTrackDetails_defaults (.error "No audio features")).1 "No audio features" rfl

/-- Raw features object with every key present except `danceability`. -/
def exPartialRaw : RawFeatures :=
  ⟨none, some (7/10), some (3/5), some 120, some (1/10), some (1/10), some 0,
    some (-5), some (1/20), some 5, some 1⟩

/-- C2 counterexample: in utils.py `extract_track_info`, a failed feature
lookup yields a record whose feature fields are all absent rather than
defaulted, and a features dict missing just `danceability` makes the whole
extraction return `None` — so normalization there neither populates every
feature field nor always succeeds. -/
theorem utilsExtract_no_defaults_counterexample :
    utilsExtractFeatures none = some none ∧
      utilsExtractFeatures (some exPartialRaw) = none := by
  constructor <;> rfl

/-! ### Mood-based recommendations (app.py `get_mood_based_recommendations`
lines 286-313, utils.py `MoodRecommender.get_mood_recommendations`
lines 341-378)

app.py checks the mood against its query table and returns the pair
`(empty DataFrame, "Invalid mood")` before any `sp.search` call; utils.py
checks against `MOOD_PARAMETERS` and returns a plain empty DataFrame with no
error value, also before any network call.  The catalog collaborator is a
function parameter, and the second component of each result counts how many
catalog calls were issued. -/

/-- A raw search hit from the catalog. -/
structure RawTrack where
  rid : ℕ
deriving DecidableEq

/-- The app.py mood-to-query table (lines 288-294). -/
def moodQueries : List (String × String) :=
  [("happy", "happy upbeat pop dance"), ("chill", "chill relax ambient calm"),
   ("workout", "workout energy gym motivation"), ("sad", "sad emotional melancholy"),
   ("party", "party dance club edm")]

/-- The keys of utils.py `MOOD_PARAMETERS` (lines 309-335). -/
def moodParamKeys : List String := ["happy", "chill", "workout", "sad", "party"]

/-- app.py's collection loop (lines 303-309): normalize each search hit,
append successes, stop as soon as `num_recommendations` records are held. -/
def collectDetails (norm : RawTrack → Option ℕ) (n : ℕ) (acc : List ℕ) :
    List RawTrack → List ℕ
| [] => acc
| t :: ts =>
    match norm t with
    | none => collectDetails norm n acc ts
    | some d =>
        if n ≤ (acc ++ [d]).length then acc ++ [d]
        else collectDetails norm n (acc ++ [d]) ts

/-- app.py `get_mood_based_recommendations`: result plus the number of
catalog calls issued. -/
def appGetMoodRecs (search : String → ℕ → List RawTrack) (norm : RawTrack → Option ℕ)
    (mood : String) (n : ℕ) : Except String (List ℕ) × ℕ :=
  match moodQueries.lookup mood with
  | none => (.error "Invalid mood", 0)
  | some q => (.ok (collectDetails norm n [] (search q (n * 2))), 1)

/-- utils.py `MoodRecommender.get_mood_recommendations`: result plus the
number of catalog calls issued.  An unknown mood returns a plain empty list
with no error channel at all. -/
def utilsGetMoodRecommendations (recs : String → ℕ → List RawTrack)
    (norm : RawTrack → Option ℕ) (mood : String) (limit : ℕ) : List ℕ × ℕ :=
  if mood ∈ moodParamKeys then ((recs mood limit).filterMap norm, 1) else ([], 0)

theorem moodQueries_lookup_none {mood : String} (h : mood ∉ moodParamKeys) :
    moodQueries.lookup mood = none := by
  simp only [moodParamKeys, List.mem_cons, List.mem_singleton] at h
  push_neg at h
  obtain ⟨h1, h2, h3, h4, h5, -⟩ := h
  simp only [moodQueries, List.lookup]
  rw [beq_eq_false_iff_ne.mpr h1, beq_eq_false_iff_ne.mpr h2, beq_eq_false_iff_ne.mpr h3,
    beq_eq_false_iff_ne.mpr h4, beq_eq_false_iff_ne.mpr h5]

/-- C7 (amended): for a mood label outside the closed five-label set,
app.py's mood entry point fails with the distinguishable error value
"Invalid mood" and issues no catalog call; utils.py's mood entry point also
issues no catalog call, but returns a bare empty list instead of an error. -/
theorem mood_invalid_spec (search recs : String → ℕ → List RawTrack)
    (norm : RawTrack → Option ℕ) (mood : String) (n limit : ℕ)
    (h : mood ∉ moodParamKeys) :
    appGetMoodRecs search norm mood n = (.error "Invalid mood", 0) ∧
      utilsGetMoodRecommendations recs norm mood limit = ([], 0) := by
  constructor
  · unfold appGetMoodRecs
    rw [moodQueries_lookup_none h]
  · unfold utilsGetMoodRecommendations
    rw [if_neg h]

/-- Witness for C7: the unrecognized label "upbeat" with a concrete catalog
stub: error outcome and zero catalog calls. -/
theorem mood_invalid_spec_witness :
    appGetMoodRecs (fun _ k => (List.range k).map RawTrack.mk) (fun t => some t.rid)
        "upbeat" 5 = (.error "Invalid mood", 0) ∧
      utilsGetMoodRecommendations (fun _ k => (List.range k).map RawTrack.mk)
        (fun t => some t.rid) "upbeat" 5 = ([], 0) :=
  mood_invalid_spec _ _ _ "upbeat" 5 5 (by decide)

/-- C7 counterexample: utils.py's outcome for the invalid mood "upbeat"
against a non-empty catalog is a bare empty list — byte-for-byte the same
value as a perfectly valid "happy" query against an empty catalog, so the
caller cannot distinguish the invalid-mood failure from an ordinary empty
result. -/
theorem utils_mood_silent_counterexample :
    (utilsGetMoodRecommendations (fun _ _ => [⟨0⟩, ⟨1⟩]) (fun t => some t.rid)
        "upbeat" 5).1 = [] ∧
      (utilsGetMoodRecommendations (fun _ _ => [⟨0⟩, ⟨1⟩]) (fun t => some t.rid)
          "upbeat" 5).1 =
        (utilsGetMoodRecommendations (fun _ _ => []) (fun t => some t.rid)
          "happy" 5).1 := by
  constructor <;> rfl

/-! ### Feature standardization (utils.py lines 159-169, app.py lines 269-274)

utils.py `calculate_similarity` stacks the seed row on top of the candidate
rows (`np.vstack`) and calls `scaler.fit_transform(all_features)`: the
per-column mean and standard deviation are fitted on the combined matrix.
app.py `recommend_songs` instead calls `scaler.fit_transform(df_features)` on
the candidate matrix alone and then `scaler.transform(seed_features)`: the
seed row is standardized with the candidates-only mean and standard
deviation, so the seed does not participate in the fit. -/

/-- utils.py standardization (lines 165-169): every row of the stacked
seed-plus-candidates matrix transformed against the combined fit. -/
noncomputable def utilsNormalizedRows (seed : List ℚ) (cands : List (List ℚ)) :
    List (List ℝ) :=
  (seed :: cands).map (stdTransform (seed :: cands))

/-- app.py standardization of the candidate rows (line 273):
`scaler.fit_transform(df_features)`. -/
noncomputable def appScaledCands (cands : List (List ℚ)) : List (List ℝ) :=
  cands.map (stdTransform cands)

/-- app.py standardization of the seed row (line 274):
`scaler.transform(seed_features)` with the scaler fitted on the candidates
alone. -/
noncomputable def appScaledSeed (seed : List ℚ) (cands : List (List ℚ)) : List ℝ :=
  stdTransform cands seed

/-- Modelled from the spec (§4.4): standardize jointly by subtracting the
per-column mean and dividing by the per-column standard deviation of the
combined seed-plus-candidates matrix, a zero-variance column standardizing
to 0 in every row. -/
noncomputable def specStdRow (fit : List (List ℚ)) : List ℚ → ℕ → List ℝ
| [], _ => []
| x :: xs, j =>
    (if popVar (col fit j) = 0 then 0
      else (((x : ℚ) : ℝ) - ((mean (col fit j) : ℚ) : ℝ)) /
        Real.sqrt ((popVar (col fit j) : ℚ) : ℝ)) :: specStdRow fit xs (j + 1)

/-- Modelled from the spec (§4.4): the joint standardization of one row of
the combined matrix. -/
noncomputable def specJointStd (seed : List ℚ) (cands : List (List ℚ)) (r : List ℚ) :
    List ℝ :=
  specStdRow (seed :: cands) r 0

theorem stdRow_eq_specStdRow {fit : List (List ℚ)} {r : List ℚ} (hr : r ∈ fit) :
    ∀ (xs : List ℚ) (j : ℕ), (∀ k, xs.getD k 0 = r.getD (j + k) 0) →
      stdRow fit xs j = specStdRow fit xs j := by
  intro xs
  induction xs with
  | nil => intro j _; rfl
  | cons x xs ih =>
      intro j h
      simp only [stdRow, specStdRow]
      congr 1
      · by_cases hv : popVar (col fit j) = 0
        · rw [if_pos hv]
          have hx : x = r.getD j 0 := by simpa using h 0
          have hmem : r.getD j 0 ∈ col fit j := List.mem_map_of_mem _ hr
          have := popVar_eq_zero_imp hv _ hmem
          rw [scaleOf, if_pos hv, hx, this]
          simp
        · rw [if_neg hv, scaleOf, if_neg hv]
      · apply ih
        intro k
        have := h (k + 1)
        simpa [Nat.add_assoc, Nat.add_comm 1 k] using this

/-- C1 (amended, utils.py part): utils.py's `calculate_similarity`
standardizes the stacked seed-plus-candidates matrix exactly as the spec's
joint-fit formula prescribes — the per-column mean and standard deviation
are those of the combined matrix (seed included), and a zero-variance column
standardizes to 0 in every row. -/
theorem calculate_similarity_joint_fit (seed : List ℚ) (cands : List (List ℚ)) :
    utilsNormalizedRows seed cands = (seed :: cands).map (specJointStd seed cands) := by
  unfold utilsNormalizedRows specJointStd
  apply List.map_congr_left
  intro r hr
  apply stdRow_eq_specStdRow hr
  intro k
  simp

/-- Seed row for the C1 counterexample (nine feature columns). -/
def exC1Seed : List ℚ := [5, 0, 0, 0, 0, 0, 0, 0, 0]

/-- Single-candidate pool for the C1 counterexample. -/
def exC1Cands : List (List ℚ) := [[0, 0, 0, 0, 0, 0, 0, 0, 0]]

/-- C1 counterexample: in app.py `recommend_songs`, the standardized seed row
differs from the joint-fit standardization of that same seed row — the
scaler is fitted on the candidates alone (there, column 0 is constant, so
the seed value 5 is shifted by mean 0 and divided by scale 1, giving 5),
whereas the joint fit over seed and candidate gives mean 5/2 and standard
deviation 5/2, hence entry 1.  The seed's values therefore do not
participate in the fit used by app.py. -/
theorem app_fit_not_joint_counterexample :
    appScaledSeed exC1Seed exC1Cands ≠ specJointStd exC1Seed exC1Cands exC1Seed := by
  intro h
  have hhead : (appScaledSeed exC1Seed exC1Cands).headD 0 =
      (specJointStd exC1Seed exC1Cands exC1Seed).headD 0 := by rw [h]
  have h1 : mean (col exC1Cands 0) = 0 := by
    norm_num [mean, col, exC1Cands]
  have h2 : popVar (col exC1Cands 0) = 0 := by
    norm_num [popVar, mean, col, exC1Cands]
  have hl : (appScaledSeed exC1Seed exC1Cands).headD 0 = 5 := by
    simp only [appScaledSeed, stdTransform, exC1Seed, stdRow, List.headD_cons]
    rw [scaleOf, if_pos h2, h1]
    norm_num
  have h3 : mean (col (([(5 : ℚ), 0, 0, 0, 0, 0, 0, 0, 0]) :: exC1Cands) 0) = 5 / 2 := by
    norm_num [mean, col, exC1Cands]
  have h4 : popVar (col (([(5 : ℚ), 0, 0, 0, 0, 0, 0, 0, 0]) :: exC1Cands) 0) = 25 / 4 := by
    norm_num [popVar, mean, col, exC1Cands]
  have hr : (specJointStd exC1Seed exC1Cands exC1Seed).headD 0 = 1 := by
    simp only [specJointStd, exC1Seed, specStdRow, List.headD_cons]
    rw [if_neg (by rw [h4]; norm_num)]
    rw [h3, h4]
    rw [show (((25 / 4 : ℚ) : ℝ)) = ((5 / 2 : ℝ)) ^ 2 by norm_num,
      Real.sqrt_sq (by norm_num)]
    push_cast
    norm_num
  rw [hl, hr] at hhead
  norm_num at hhead

/-! ### Zero-variance columns (utils.py lines 165-172, app.py lines 272-277)

sklearn replaces a zero standard deviation by scale 1, so a constant column
standardizes to 0 in every row (the value minus the column mean), and that
column contributes nothing to any dot product or squared norm inside
`cosine_similarity`. -/

theorem sumProd_cons (x y : ℝ) (u v : List ℝ) :
    sumProd (x :: u) (y :: v) = x * y + sumProd u v := by
  simp [sumProd]

theorem sumProd_nil_right (u : List ℝ) : sumProd u [] = 0 := by
  cases u <;> rfl

theorem stdRow_getD (fit : List (List ℚ)) :
    ∀ (xs : List ℚ) (j k : ℕ),
      (stdRow fit xs j).getD k 0 =
        if k < xs.length then
          (((xs.getD k 0 : ℚ) : ℝ) - ((mean (col fit (j + k)) : ℚ) : ℝ)) /
            scaleOf (col fit (j + k))
        else 0 := by
  intro xs
  induction xs with
  | nil =>
      intro j k
      simp [stdRow]
  | cons x xs ih =>
      intro j k
      cases k with
      | zero =>
          simp [stdRow]
      | succ k =>
          simp only [stdRow, List.getD_cons_succ, List.length_cons, Nat.succ_lt_succ_iff]
          rw [ih (j + 1) k, show j + 1 + k = j + (k + 1) by omega]

theorem col_ne_nil {fit : List (List ℚ)} (h : fit ≠ []) (m : ℕ) : col fit m ≠ [] := by
  intro hc
  exact h (List.map_eq_nil_iff.mp hc)

theorem stdTransform_getD_zero {fit : List (List ℚ)} {a : ℚ} {m : ℕ}
    (hfit : fit ≠ []) (hconst : ∀ x ∈ col fit m, x = a)
    {r : List ℚ} (hr : r.getD m 0 = a) :
    (stdTransform fit r).getD m 0 = 0 := by
  unfold stdTransform
  rw [stdRow_getD]
  by_cases hm : m < r.length
  · rw [if_pos hm]
    have hmean : mean (col fit m) = a := mean_of_const (col_ne_nil hfit m) hconst
    rw [Nat.zero_add, hr, hmean]
    simp
  · rw [if_neg hm]

theorem sumProd_eraseIdx :
    ∀ (u v : List ℝ) (m : ℕ), u.getD m 0 = 0 →
      sumProd u v = sumProd (u.eraseIdx m) (v.eraseIdx m) := by
  intro u
  induction u with
  | nil =>
      intro v m _
      simp [sumProd, List.eraseIdx_nil]
  | cons x u ih =>
      intro v m hm
      cases v with
      | nil => rw [sumProd_nil_right, List.eraseIdx_nil, sumProd_nil_right]
      | cons y v =>
          cases m with
          | zero =>
              have hx : x = 0 := by simpa using hm
              simp only [List.eraseIdx_cons_zero, sumProd_cons, hx]
              ring
          | succ k =>
              have hm' : u.getD k 0 = 0 := by simpa using hm
              simp only [List.eraseIdx_cons_succ, sumProd_cons]
              rw [ih v k hm']

theorem cosineSim_eraseIdx {u v : List ℝ} {m : ℕ}
    (hu : u.getD m 0 = 0) (hv : v.getD m 0 = 0) :
    cosineSim u v = cosineSim (u.eraseIdx m) (v.eraseIdx m) := by
  unfold cosineSim nrm normSq
  rw [← sumProd_eraseIdx u v m hu, ← sumProd_eraseIdx u u m hu, ← sumProd_eraseIdx v v m hv]

/-- C4: when feature column `m` is constant across the seed and every
candidate, the sklearn scale of that column is 1 in both variants (so no
division by zero happens), the standardized value of column `m` is 0 in the
seed row and in every candidate row (app.py's separate fit and utils.py's
joint fit alike), and erasing that column changes no candidate's
cosine-similarity score — the column contributes exactly zero. -/
theorem zero_variance_column_spec (seed : List ℚ) (cands : List (List ℚ)) (m : ℕ)
    (hne : cands ≠ [])
    (hconst : ∀ x ∈ col (seed :: cands) m, x = seed.getD m 0) :
    scaleOf (col cands m) = 1 ∧
      scaleOf (col (seed :: cands) m) = 1 ∧
      (appScaledSeed seed cands).getD m 0 = 0 ∧
      (∀ r ∈ appScaledCands cands, r.getD m 0 = 0) ∧
      (∀ r ∈ utilsNormalizedRows seed cands, r.getD m 0 = 0) ∧
      (∀ c ∈ cands, cosineSim (appScaledSeed seed cands) (stdTransform cands c) =
        cosineSim ((appScaledSeed seed cands).eraseIdx m)
          ((stdTransform cands c).eraseIdx m)) ∧
      (∀ c ∈ cands,
        cosineSim (stdTransform (seed :: cands) seed) (stdTransform (seed :: cands) c) =
          cosineSim ((stdTransform (seed :: cands) seed).eraseIdx m)
            ((stdTransform (seed :: cands) c).eraseIdx m)) := by
  have hcol : col (seed :: cands) m = seed.getD m 0 :: col cands m := rfl
  have hconstC : ∀ x ∈ col cands m, x = seed.getD m 0 := by
    intro x hx
    exact hconst x (by rw [hcol]; exact List.mem_cons_of_mem _ hx)
  have hzA : ∀ r ∈ cands, (stdTransform cands r).getD m 0 = 0 := by
    intro r hr
    exact stdTransform_getD_zero hne hconstC
      (hconstC (r.getD m 0) (List.mem_map_of_mem _ hr))
  have hzAseed : (appScaledSeed seed cands).getD m 0 = 0 :=
    stdTransform_getD_zero hne hconstC rfl
  have hzJ : ∀ r ∈ seed :: cands, (stdTransform (seed :: cands) r).getD m 0 = 0 := by
    intro r hr
    exact stdTransform_getD_zero (by simp) hconst
      (hconst (r.getD m 0) (List.mem_map_of_mem _ hr))
  refine ⟨?_, ?_, hzAseed, ?_, ?_, ?_, ?_⟩
  · rw [scaleOf, if_pos (popVar_of_const hconstC)]
  · rw [scaleOf, if_pos (popVar_of_const hconst)]
  · intro r hr
    rcases List.mem_map.mp hr with ⟨c, hc, rfl⟩
    exact hzA c hc
  · intro r hr
    rcases List.mem_map.mp hr with ⟨c, hc, rfl⟩
    exact hzJ c hc
  · intro c hc
    exact cosineSim_eraseIdx hzAseed (hzA c hc)
  · intro c hc
    exact cosineSim_eraseIdx (hzJ seed (by simp)) (hzJ c (List.mem_cons_of_mem _ hc))

/-- Seed row used by the C4 witness (tempo column 3 equal to 120). -/
def exC4Seed : List ℚ := [4/5, 7/10, 3/5, 120, 1/10, 1/10, 0, -5, 1/20]

/-- Candidate rows used by the C4 witness: both share tempo 120 with the
seed, all other columns vary. -/
def exC4Cands : List (List ℚ) :=
  [[1/2, 1/2, 1/2, 120, 1/2, 1/2, 1/2, -10, 1/2],
   [3/5, 2/5, 7/10, 120, 1/5, 1/10, 0, -7, 1/10]]

/-- Witness for C4: with the shared tempo column 3, the fitted scale is 1
and the standardized seed entry for that column is 0. -/
theorem zero_variance_column_spec_witness :
    scaleOf (col exC4Cands 3) = 1 ∧
      (appScaledSeed exC4Seed exC4Cands).getD 3 0 = 0 :=
  ⟨(zero_variance_column_spec exC4Seed exC4Cands 3 (by decide) (by decide)).1,
   (zero_variance_column_spec exC4Seed exC4Cands 3 (by decide) (by decide)).2.2.1⟩

/-! ### Frame effect of utils.py `calculate_similarity` (lines 159-180)

The function builds the math inputs from copies (`candidate_df[feature_cols]
.fillna(0)` and `result_df = candidate_df.copy()`), then assigns the new
`similarity` column on the copy and returns it: every original row, in
order, with original column values (including any NaN features), plus the
one new column. -/

/-- A candidate row as seen by `calculate_similarity`: an opaque payload for
the non-feature columns and the nine feature columns, possibly NaN. -/
structure CTrack where
  meta : ℕ
  feats : List (Option ℚ)
deriving DecidableEq

/-- A row of the returned DataFrame: the original row plus the new
`similarity` column. -/
structure ScoredCTrack where
  base : CTrack
  similarity : ℝ

/-- utils.py `RecommendationEngine.calculate_similarity` (lines 159-177):
seed vector via `seed_features.get(col, 0)`, candidate matrix via
`fillna(0)`, joint standardization of the vstacked matrix, cosine similarity
of the standardized seed row against each standardized candidate row,
appended to a copy of the original rows. -/
noncomputable def utilsCalculateSimilarity (seedF : List (Option ℚ)) (pool : List CTrack) :
    List ScoredCTrack :=
  let seed : List ℚ := seedF.map (fun o => o.getD 0)
  let cands : List (List ℚ) := pool.map (fun t => t.feats.map (fun o => o.getD 0))
  let fit : List (List ℚ) := seed :: cands
  pool.map (fun t =>
    ⟨t, cosineSim (stdTransform fit seed)
      (stdTransform fit (t.feats.map (fun o => o.getD 0)))⟩)

/-- C10: the result of `calculate_similarity` carries exactly the input's
rows, in the input order, with every original column value unchanged — the
only change is the added `similarity` column (and, the embedding being a
pure function of its arguments, the caller's input is not mutated). -/
theorem calculate_similarity_frame_effect (seedF : List (Option ℚ)) (pool : List CTrack) :
    (utilsCalculateSimilarity seedF pool).map ScoredCTrack.base = pool := by
  unfold utilsCalculateSimilarity
  rw [List.map_map]
  exact map_id_of_mem (fun t _ => rfl)

/-! ### A seed-identical candidate and the ranked output
(utils.py lines 159-177, app.py lines 269-279)

In app.py the scaler is fitted on the candidates, so a candidate whose raw
feature vector equals the seed's standardizes to exactly the standardized
seed row; its cosine similarity is 1 whenever that row is nonzero, and since
no cosine similarity exceeds 1, the top-ranked record then also scores 1.
When every column is constant (e.g. all candidates identical to the seed),
all standardized rows are zero and sklearn's zero-norm convention yields
similarity 0 instead. -/

theorem normSq_cons (x : ℝ) (u : List ℝ) : normSq (x :: u) = x * x + normSq u := by
  unfold normSq
  exact sumProd_cons x x u u

theorem normSq_nonneg (u : List ℝ) : 0 ≤ normSq u := by
  induction u with
  | nil => simp [normSq, sumProd]
  | cons x u ih =>
      rw [normSq_cons]
      nlinarith [mul_self_nonneg x]

theorem getD_sq_le_normSq : ∀ (u : List ℝ) (m : ℕ), (u.getD m 0) ^ 2 ≤ normSq u := by
  intro u
  induction u with
  | nil => intro m; simp [normSq, sumProd]
  | cons x u ih =>
      intro m
      rw [normSq_cons]
      cases m with
      | zero =>
          simp only [List.getD_cons_zero]
          nlinarith [normSq_nonneg u]
      | succ k =>
          simp only [List.getD_cons_succ]
          nlinarith [ih k, mul_self_nonneg x]

theorem sumProd_eq_zero_of_normSq_left :
    ∀ {u : List ℝ}, normSq u = 0 → ∀ (v : List ℝ), sumProd u v = 0 := by
  intro u
  induction u with
  | nil => intro _ v; rfl
  | cons x u ih =>
      intro h v
      rw [normSq_cons] at h
      have hx : x = 0 := by nlinarith [normSq_nonneg u, mul_self_nonneg x]
      have hu : normSq u = 0 := by nlinarith [normSq_nonneg u, mul_self_nonneg x]
      cases v with
      | nil => exact sumProd_nil_right _
      | cons y v =>
          rw [sumProd_cons, hx, ih hu v]
          ring

theorem sumProd_comm : ∀ (u v : List ℝ), sumProd u v = sumProd v u := by
  intro u
  induction u with
  | nil =>
      intro v
      rw [sumProd_nil_right]
      rfl
  | cons x u ih =>
      intro v
      cases v with
      | nil =>
          rw [sumProd_nil_right]
          rfl
      | cons y v =>
          rw [sumProd_cons, sumProd_cons, ih, mul_comm x y]

/-- Cauchy-Schwarz for the list dot product. -/
theorem sq_sumProd_le : ∀ (u v : List ℝ), (sumProd u v) ^ 2 ≤ normSq u * normSq v := by
  intro u
  induction u with
  | nil =>
      intro v
      simp [sumProd, normSq]
  | cons x u ih =>
      intro v
      cases v with
      | nil =>
          rw [sumProd_nil_right]
          simp only [normSq, sumProd_nil_right, mul_zero]
          norm_num
      | cons y v =>
          rw [sumProd_cons, normSq_cons, normSq_cons]
          have hA := normSq_nonneg u
          have hB := normSq_nonneg v
          have hS := ih v
          by_cases hA0 : normSq u = 0
          · have hS0 : sumProd u v = 0 := sumProd_eq_zero_of_normSq_left hA0 v
            rw [hA0, hS0]
            nlinarith [mul_self_nonneg x, mul_self_nonneg y, mul_nonneg (mul_self_nonneg x) hB]
          · have hApos : 0 < normSq u := lt_of_le_of_ne hA (Ne.symm hA0)
            nlinarith [sq_nonneg (x * sumProd u v - y * normSq u),
              mul_nonneg hA (sub_nonneg.mpr hS),
              mul_nonneg (mul_self_nonneg x) (sub_nonneg.mpr hS), hApos]

theorem cosineSim_self {u : List ℝ} (h : normSq u ≠ 0) : cosineSim u u = 1 := by
  unfold cosineSim nrm
  rw [if_neg h, Real.mul_self_sqrt (normSq_nonneg u)]
  exact div_self h

theorem cosineSim_le_one (u v : List ℝ) : cosineSim u v ≤ 1 := by
  unfold cosineSim nrm
  by_cases hu : normSq u = 0
  · rw [if_pos hu, sumProd_eq_zero_of_normSq_left hu v, zero_div]
    norm_num
  · by_cases hv : normSq v = 0
    · have h0 : sumProd u v = 0 := by
        rw [sumProd_comm]
        exact sumProd_eq_zero_of_normSq_left hv u
      rw [if_neg hu, if_pos hv, h0, zero_div]
      norm_num
    · rw [if_neg hu, if_neg hv]
      have hA : 0 < normSq u := lt_of_le_of_ne (normSq_nonneg u) (Ne.symm hu)
      have hB : 0 < normSq v := lt_of_le_of_ne (normSq_nonneg v) (Ne.symm hv)
      have hden : 0 < Real.sqrt (normSq u) * Real.sqrt (normSq v) :=
        mul_pos (Real.sqrt_pos.mpr hA) (Real.sqrt_pos.mpr hB)
      rw [div_le_one hden]
      have hsq : (sumProd u v) ^ 2 ≤ (Real.sqrt (normSq u) * Real.sqrt (normSq v)) ^ 2 := by
        rw [mul_pow, Real.sq_sqrt (normSq_nonneg u), Real.sq_sqrt (normSq_nonneg v)]
        exact sq_sumProd_le u v
      nlinarith [hsq, hden]

theorem scaleOf_pos (xs : List ℚ) : (0 : ℝ) < scaleOf xs := by
  unfold scaleOf
  by_cases h : popVar xs = 0
  · rw [if_pos h]
    norm_num
  · rw [if_neg h]
    apply Real.sqrt_pos.mpr
    have hlt : (0 : ℚ) < popVar xs := lt_of_le_of_ne (popVar_nonneg xs) (Ne.symm h)
    exact_mod_cast hlt

theorem headD_take {α : Type} (l : List α) (d : α) (m : ℕ) (hm : 1 ≤ m) :
    (l.take m).headD d = l.headD d := by
  cases m with
  | zero => omega
  | succ k => cases l <;> rfl

theorem headD_mem {α : Type} {l : List α} (h : l ≠ []) (d : α) : l.headD d ∈ l := by
  cases l with
  | nil => exact absurd rfl h
  | cons a t => simp

theorem sortDesc_head_ge {α β : Type} [LinearOrder β] (key : α → β) (l : List α)
    (x : α) (d : α) (hx : x ∈ l) :
    key x ≤ key ((sortDesc key l).headD d) := by
  have hx' : x ∈ sortDesc key l := (sortDesc_perm key l).mem_iff.mpr hx
  have hsorted := sortDesc_sorted key l
  cases hs : sortDesc key l with
  | nil => rw [hs] at hx'; cases hx'
  | cons a t =>
      rw [hs] at hx' hsorted
      rcases List.mem_cons.mp hx' with rfl | hxt
      · simp
      · simp only [List.headD_cons]
        exact (List.pairwise_cons.mp hsorted).1 x hxt

/-- A candidate row of the post-filter pool in app.py `recommend_songs`:
opaque payload plus the nine feature columns. -/
structure STrack where
  meta : ℕ
  feats : List ℚ
deriving DecidableEq

/-- A candidate row together with its `similarity` column. -/
structure ScoredS where
  base : STrack
  similarity : ℝ

/-- The similarity score app.py assigns to a candidate row (lines 270-276):
cosine similarity between the seed transformed by the candidates-fitted
scaler and the candidate's own standardized row. -/
noncomputable def appScore (seed : List ℚ) (cands : List (List ℚ)) (c : List ℚ) : ℝ :=
  cosineSim (appScaledSeed seed cands) (stdTransform cands c)

/-- app.py ranking (lines 277-279): score every pool row, then
`nlargest(min(num_recommendations, len(df)), 'similarity')`. -/
noncomputable def appRecommendRanked (seed : List ℚ) (pool : List STrack) (n : ℕ) :
    List ScoredS :=
  let cands := pool.map STrack.feats
  let scored := pool.map (fun t => ScoredS.mk t (appScore seed cands t.feats))
  (sortDesc ScoredS.similarity scored).take (min n scored.length)

/-- C8 (amended): when some candidate's feature vector equals the seed's
exactly and the standardized seed row is nonzero (equivalently, some feature
of the seed differs from the candidates' column mean), that candidate's
similarity is 1, and the first-ranked record of the output likewise has
similarity 1. -/
theorem identical_candidate_tops (seed : List ℚ) (pool : List STrack) (n : ℕ)
    (A : STrack) (hA : A ∈ pool) (hfeats : A.feats = seed)
    (j : ℕ) (hj : j < seed.length)
    (hdiff : seed.getD j 0 ≠ mean (col (pool.map STrack.feats) j))
    (hn : 1 ≤ n) :
    appScore seed (pool.map STrack.feats) A.feats = 1 ∧
      ((appRecommendRanked seed pool n).headD ⟨A, 0⟩).similarity = 1 := by
  have hentry : (appScaledSeed seed (pool.map STrack.feats)).getD j 0 ≠ 0 := by
    rw [appScaledSeed, stdTransform, stdRow_getD, if_pos hj, Nat.zero_add]
    apply div_ne_zero
    · intro hzero
      apply hdiff
      have hsub := sub_eq_zero.mp hzero
      exact_mod_cast hsub
    · exact ne_of_gt (scaleOf_pos _)
  have hnormSq : normSq (appScaledSeed seed (pool.map STrack.feats)) ≠ 0 := by
    intro h0
    apply hentry
    have hle := getD_sq_le_normSq (appScaledSeed seed (pool.map STrack.feats)) j
    rw [h0] at hle
    have := sq_nonneg ((appScaledSeed seed (pool.map STrack.feats)).getD j 0)
    have hz : ((appScaledSeed seed (pool.map STrack.feats)).getD j 0) ^ 2 = 0 := le_antisymm hle this
    exact pow_eq_zero_iff two_ne_zero |>.mp hz
  have hscoreA : appScore seed (pool.map STrack.feats) A.feats = 1 := by
    rw [appScore, hfeats]
    exact cosineSim_self hnormSq
  refine ⟨hscoreA, ?_⟩
  have hAs : ScoredS.mk A (appScore seed (pool.map STrack.feats) A.feats) ∈
      pool.map (fun t => ScoredS.mk t (appScore seed (pool.map STrack.feats) t.feats)) :=
    List.mem_map_of_mem _ hA
  set cands := pool.map STrack.feats with hcands
  set scored := pool.map (fun t => ScoredS.mk t (appScore seed cands t.feats)) with hscored
  have hpoollen : 1 ≤ pool.length := List.length_pos.mpr (List.ne_nil_of_mem hA)
  have hscoredlen : scored.length = pool.length := by rw [hscored, List.length_map]
  have hsortlen : (sortDesc ScoredS.similarity scored).length = scored.length :=
    (sortDesc_perm ScoredS.similarity scored).length_eq
  have hsortne : sortDesc ScoredS.similarity scored ≠ [] := by
    intro hnil
    rw [hnil] at hsortlen
    simp only [List.length_nil] at hsortlen
    omega
  have hmin : 1 ≤ min n scored.length := by
    rw [hscoredlen]
    omega
  have hhead : (appRecommendRanked seed pool n).headD ⟨A, 0⟩ =
      (sortDesc ScoredS.similarity scored).headD ⟨A, 0⟩ := by
    unfold appRecommendRanked
    exact headD_take _ _ _ hmin
  rw [hhead]
  have hge : (1 : ℝ) ≤ ((sortDesc ScoredS.similarity scored).headD ⟨A, 0⟩).similarity := by
    have := sortDesc_head_ge ScoredS.similarity scored
      (ScoredS.mk A (appScore seed cands A.feats)) ⟨A, 0⟩ hAs
    rw [hscoreA] at this
    exact this
  have hle : ((sortDesc ScoredS.similarity scored).headD ⟨A, 0⟩).similarity ≤ 1 := by
    have hmem : (sortDesc ScoredS.similarity scored).headD ⟨A, 0⟩ ∈
        sortDesc ScoredS.similarity scored := headD_mem hsortne _
    have hmem2 : (sortDesc ScoredS.similarity scored).headD ⟨A, 0⟩ ∈ scored :=
      (sortDesc_perm ScoredS.similarity scored).mem_iff.mp hmem
    rw [hscored] at hmem2
    rcases List.mem_map.mp hmem2 with ⟨t, _, heq⟩
    rw [← heq]
    exact cosineSim_le_one _ _
  linarith

/-- Seed vector of the spec's scenario (§8): danceability 0.8, energy 0.7,
valence 0.6, tempo 120, acousticness 0.1, liveness 0.1, instrumentalness 0,
loudness -5, speechiness 0.05. -/
def exC8Seed : List ℚ := [4/5, 7/10, 3/5, 120, 1/10, 1/10, 0, -5, 1/20]

/-- Three-candidate pool for the C8 witness: candidate A equals the seed
exactly, the other two differ. -/
def exC8Pool : List STrack :=
  [⟨0, exC8Seed⟩,
   ⟨1, [3/5, 1/2, 1/2, 125, 1/5, 1/10, 0, -7, 1/10]⟩,
   ⟨2, [2/5, 3/10, 2/5, 110, 3/10, 1/5, 1/10, -9, 1/5]⟩]

/-- Witness for C8: in the spec's three-candidate scenario (with a
non-degenerate pool), the seed-identical candidate scores 1 and the
first-ranked record scores 1. -/
theorem identical_candidate_tops_witness :
    appScore exC8Seed (exC8Pool.map STrack.feats) (STrack.mk 0 exC8Seed).feats = 1 ∧
      ((appRecommendRanked exC8Seed exC8Pool 5).headD ⟨⟨0, exC8Seed⟩, 0⟩).similarity = 1 :=
  identical_candidate_tops exC8Seed exC8Pool 5 ⟨0, exC8Seed⟩ (by simp [exC8Pool]) rfl 0
    (by norm_num [exC8Seed]) (by norm_num [mean, col, exC8Pool, exC8Seed]) (by norm_num)

theorem stdRow_all_same_zero (rows : List (List ℚ)) (r : List ℚ)
    (hne : rows ≠ []) (hrows : ∀ q ∈ rows, q = r) :
    ∀ (xs : List ℚ) (j : ℕ), (∀ k, xs.getD k 0 = r.getD (j + k) 0) →
      stdRow rows xs j = List.replicate xs.length 0 := by
  intro xs
  induction xs with
  | nil => intro j _; rfl
  | cons x xs ih =>
      intro j h
      have hx : x = r.getD j 0 := by simpa using h 0
      have hconst : ∀ v ∈ col rows j, v = x := by
        intro v hv
        rcases List.mem_map.mp hv with ⟨q, hq, rfl⟩
        rw [hrows q hq, hx]
      simp only [stdRow, List.length_cons, List.replicate_succ]
      congr 1
      · rw [mean_of_const (col_ne_nil hne j) hconst, scaleOf,
          if_pos (popVar_of_const hconst)]
        simp
      · apply ih
        intro k
        have := h (k + 1)
        simpa [Nat.add_assoc, Nat.add_comm 1 k] using this

theorem normSq_replicate_zero : ∀ n : ℕ, normSq (List.replicate n (0 : ℝ)) = 0 := by
  intro n
  induction n with
  | zero => rfl
  | succ k ih =>
      rw [List.replicate_succ, normSq_cons, ih]
      ring

/-- C8 counterexample: with all three candidates identical to the seed
(candidate A's vector equals the seed exactly, as the claim requires), every
column has zero variance, all standardized rows are zero, and sklearn's
zero-norm convention gives A similarity 0 — not 1. -/
theorem identical_candidate_zero_counterexample :
    appScore exC8Seed [exC8Seed, exC8Seed, exC8Seed] exC8Seed = 0 ∧
      appScore exC8Seed [exC8Seed, exC8Seed, exC8Seed] exC8Seed ≠ 1 := by
  have hz : stdTransform [exC8Seed, exC8Seed, exC8Seed] exC8Seed =
      List.replicate exC8Seed.length 0 := by
    unfold stdTransform
    refine stdRow_all_same_zero [exC8Seed, exC8Seed, exC8Seed] exC8Seed (by simp) ?_
      exC8Seed 0 ?_
    · intro q hq
      rcases List.mem_cons.mp hq with rfl | hq'
      · rfl
      · rcases List.mem_cons.mp hq' with rfl | hq''
        · rfl
        · rcases List.mem_cons.mp hq'' with rfl | hq'''
          · rfl
          · cases hq'''
    · intro k
      rw [Nat.zero_add]
  have h0 : appScore exC8Seed [exC8Seed, exC8Seed, exC8Seed] exC8Seed = 0 := by
    rw [appScore, appScaledSeed, hz]
    unfold cosineSim
    rw [sumProd_eq_zero_of_normSq_left (normSq_replicate_zero _) _, zero_div]
  exact ⟨h0, by rw [h0]; norm_num⟩

end MusicRec
